import Mathlib

/-!
Verification of the discotron message-routing core.

This file gives a shallow embedding of the routing pipeline of
`src/core/discotron.js` (`onMessage`, `updateGuilds`) together with the
guild mutator `Guild.setPluginEnabled` (`src/core/models/guild.js`) and the
owner registry `Owner.setOwners` / `Owner.isOwner`
(`src/core/models/owner.js`), and proves properties of the routing logic.

Modelling conventions:
- JS `Set` objects (`allowedChannelIds`, `enabledPlugins`, `Owner._owners`)
  become `Finset String`; `Set.has` is membership, `Set.size` is `card`.
- The `Permission`, `SpamUser` and `Command` modules are not part of the
  routing source; the router only calls into them (`allows`, `onAction`,
  `isRestricted`, `triggeredBy`, `doMessageAction`), so they are embedded
  as opaque function fields.  The spam tracker's mutable state is threaded
  explicitly as a state value of an arbitrary type `σ`.
- `command.triggeredBy(message, loweredCaseMessage, prefix)` receives the
  prefix argument only on the `command`-type call site (the other call
  sites pass two arguments, leaving it `undefined`); this is embedded as
  an `Option String` parameter.
- Thrown exceptions of `command.doMessageAction` are `Except` values
  consumed by the execution loop; the uncaught `TypeError` raised when
  `guild.permissions[pluginId]` is `undefined` is the router-level
  `Except` error of `onMessage`.
- The output record carries, besides the executed actions and error logs,
  ghost observability fields (plugins that reached candidate evaluation,
  `command`-type trigger matches, registered spam actions) recorded at the
  corresponding points of the source control flow.
-/

/-- JS strings that undergo text manipulation (message content, command
prefixes) are embedded as character sequences, so that lower-casing,
prefix tests and splitting are executable; identifier-only strings (ids,
names, triggers) stay `String`. -/
abbrev Str := List Char

/-- Embedding of `String.prototype.toLowerCase`. -/
def toLowerStr (s : Str) : Str := s.map Char.toLower

/-- Embedding of `s.startsWith(pfx)`. -/
def startsWithStr (s pfx : Str) : Bool := pfx.isPrefixOf s

/-- Embedding of the whitespace tokenization `message.content.split(" ")`
(single-space separator, JS semantics: the empty string yields one empty
token). -/
def splitOnSp : Str → List Str
  | [] => [[]]
  | c :: rest =>
    if c = ' ' then [] :: splitOnSp rest
    else
      match splitOnSp rest with
      | [] => [[c]]
      | w :: ws => (c :: w) :: ws

/-- Scope of a command: `everywhere`, `pm` or `guild` (strings in the JS
source, compared with `===`). -/
inductive Scope where
  | everywhere
  | pm
  | guild
deriving DecidableEq

/-- One triggerable command of a plugin.  `triggeredBy` receives the
lower-cased message and, at the `command`-type call site only, the
effective prefix.  `doMessageAction` receives the raw content and the
whitespace-tokenized words and either succeeds or throws (an error
message). -/
structure Command where
  trigger : String
  scope : Scope
  bypassSpamDetection : Bool
  triggeredBy : Str → Option Str → Bool
  doMessageAction : Str → List Str → Except String Unit

/-- The three trigger-type collections of a plugin
(`plugin.commands.command`, `.words`, `.all`). -/
structure PluginCommands where
  command : List Command
  words : List Command
  all : List Command

/-- An installed plugin as read by the router: id (its key in
`Plugin.getAll()`), display name, plugin command prefix and the global
enabled flag. -/
structure Plugin where
  id : String
  name : String
  pluginPfx : Str
  enabled : Bool
  commands : PluginCommands

/-- Per (guild, plugin) permission record; the router only calls
`permission.allows(message.author.id)`. -/
structure Permission where
  allows : String → Bool

/-- A guild's configuration as read by the router.  `permissions` is the
object map `guild.permissions` keyed by plugin id, hence a partial map:
lookups can fail, mirroring an `undefined` entry. -/
structure Guild where
  cmdPfx : Str
  allowedChannelIds : Finset String
  enabledPlugins : Finset String
  permissions : List (String × Permission)

/-- An inbound Discord message, restricted to the fields `onMessage`
reads. -/
structure Message where
  authorIsBot : Bool
  authorId : String
  channelId : String
  guildId : Option String
  content : Str

/-- Process-wide context of the router: owner registry, guild registry,
plugin registry and the spam-tracker interface (`SpamUser.onAction` /
`SpamUser.isRestricted`) over a spam state `σ`.  The `botSettings`
object's `maintenance` flag is a separate argument of `onMessage`. -/
structure Ctx (σ : Type) where
  owners : Finset String
  guilds : List (String × Guild)
  plugins : List Plugin
  spamOnAction : σ → String → σ
  spamIsRestricted : σ → String → Bool

/-- Association-list lookup, the embedding of indexing a JS object map by
a string key. -/
def findVal {α : Type} : List (String × α) → String → Option α
  | [], _ => none
  | (k, v) :: rest, key => if k = key then some v else findVal rest key

/-- Log entry produced when a command action throws
(`Logger.err` with plugin name and command trigger). -/
structure ExecLog where
  pluginName : String
  trigger : String
  errMsg : String
deriving DecidableEq

/-- Observable output of routing one message.
`evaluated`: ids of plugins that passed all three skip gates and reached
candidate evaluation (ghost).  `cmdMatches`: `(pluginId, trigger)` of
`command`-type triggers matched in the prefix branch (ghost).
`spamActions`: `(pluginId, authorId)` for each `SpamUser.onAction` call.
`attempts`: `(pluginName, trigger)` for each command action invoked.
`errLogs`: logged execution failures. -/
structure MsgOut where
  evaluated : List String
  cmdMatches : List (String × String)
  spamActions : List (String × String)
  attempts : List (String × String)
  errLogs : List ExecLog
deriving DecidableEq

/-- The empty routing output. -/
def emptyOut : MsgOut :=
  { evaluated := [], cmdMatches := [], spamActions := [], attempts := [], errLogs := [] }

/-- Concatenation of routing outputs of successive plugins. -/
def appendOut (a b : MsgOut) : MsgOut :=
  { evaluated := a.evaluated ++ b.evaluated
    cmdMatches := a.cmdMatches ++ b.cmdMatches
    spamActions := a.spamActions ++ b.spamActions
    attempts := a.attempts ++ b.attempts
    errLogs := a.errLogs ++ b.errLogs }

/-- Router-level abort: the `TypeError` thrown by
`guild.permissions[pluginId].allows(...)` when no permission record
exists for the plugin. -/
inductive RouterError where
  | missingPermission (pluginId : String)
deriving DecidableEq

/-- Embedding of `Owner.isOwner` (`src/core/models/owner.js`): falsy ids
(the empty string stands for `undefined`/empty) are not owners, otherwise
set membership. -/
def isOwner (owners : Finset String) (id : String) : Bool :=
  (id != "") && decide (id ∈ owners)

/-- The channel gate of `onMessage` (line 64): with a guild context, block
when the allowed-channel set does not contain the channel and is
non-empty. -/
def channelBlocked (guildCtx : Option Guild) (channelId : String) : Bool :=
  match guildCtx with
  | none => false
  | some g => !(decide (channelId ∈ g.allowedChannelIds)) && g.allowedChannelIds.card > 0

/-- The per-plugin enabled-plugins gate of `onMessage` (line 85): skip
when the guild's enabled set does not contain the plugin and is
non-empty. -/
def skippedByEnabledPlugins (g : Guild) (pluginId : String) : Bool :=
  !(decide (pluginId ∈ g.enabledPlugins)) && g.enabledPlugins.card > 0

/-- Guild-context resolution of `onMessage` (lines 59-62): messages with
no guild have no context; otherwise look the guild up in the registry
(which may also fail). -/
def resolvedGuild {σ : Type} (ctx : Ctx σ) (msg : Message) : Option Guild :=
  match msg.guildId with
  | none => none
  | some gid => findVal ctx.guilds gid

/-- The `isCommand` computation of `onMessage` (line 70): true with no
guild context, else the RAW message content starts with the guild command
prefix. -/
def isCommandOf (guildCtx : Option Guild) (content : Str) : Bool :=
  match guildCtx with
  | none => true
  | some g => startsWithStr content g.cmdPfx

/-- The `command`-type branch of candidate collection (lines 97-105):
entered only when `isCommand` holds and the lower-cased message starts
with the effective prefix. -/
def commandTypeMatches (p : Plugin) (isCmd : Bool) (lowered effPfx : Str) : List Command :=
  if isCmd && startsWithStr lowered effPfx then
    p.commands.command.filter (fun c => c.triggeredBy lowered (some effPfx))
  else []

/-- Candidate collection from `command`-type then `words`-type triggers
(lines 97-114): `words` triggers are evaluated only when the `command`
branch produced no candidate. -/
def buildCandidates (p : Plugin) (isCmd : Bool) (lowered effPfx : Str) : List Command :=
  let cmds := commandTypeMatches p isCmd lowered effPfx
  if cmds.isEmpty then
    p.commands.words.filter (fun c => c.triggeredBy lowered none)
  else cmds

/-- The spam-detection block (lines 116-128): with a non-empty candidate
list and a non-owner author, the loop registers one action at the first
non-exempt candidate, then empties the candidate list if the author is
restricted, and breaks.  Returns the new spam state, the surviving
candidates and the author ids for which an action was registered. -/
def spamGate {σ : Type} (ctx : Ctx σ) (s : σ) (authorId : String) (ownerFlag : Bool)
    (commands : List Command) : σ × List Command × List String :=
  if commands.isEmpty || ownerFlag then (s, commands, [])
  else
    match commands.find? (fun c => !c.bypassSpamDetection) with
    | none => (s, commands, [])
    | some _ =>
      let s2 := ctx.spamOnAction s authorId
      if ctx.spamIsRestricted s2 authorId then (s2, [], [authorId])
      else (s2, commands, [authorId])

/-- Scope compatibility check of the execution loop (line 143). -/
def scopeOk (sc : Scope) (inGuild : Bool) : Bool :=
  sc = Scope.everywhere || (sc = Scope.pm && !inGuild) || (sc = Scope.guild && inGuild)

/-- The execution loop (lines 139-150): each scope-compatible command's
action is invoked with the raw content and its whitespace tokenization; a
thrown error is caught and logged with the plugin name and the command
trigger, and the loop continues.  Returns the attempted `(name, trigger)`
pairs and the error logs, in loop order. -/
def execCommands (p : Plugin) (inGuild : Bool) (content : Str) :
    List Command → List (String × String) × List ExecLog
  | [] => ([], [])
  | c :: rest =>
    let tail := execCommands p inGuild content rest
    if scopeOk c.scope inGuild then
      match c.doMessageAction content (splitOnSp content) with
      | Except.ok _ => ((p.name, c.trigger) :: tail.1, tail.2)
      | Except.error e => ((p.name, c.trigger) :: tail.1, ⟨p.name, c.trigger, e⟩ :: tail.2)
    else tail

/-- The `all`-type matches (lines 131-136), appended to the candidate
list after the spam gate. -/
def allTypeMatches (p : Plugin) (lowered : Str) : List Command :=
  p.commands.all.filter (fun c => c.triggeredBy lowered none)

/-- The effective prefix for a plugin (lines 89-95): guild command prefix
(when a guild context exists) followed by the plugin prefix. -/
def effectivePfx (guildCtx : Option Guild) (p : Plugin) : Str :=
  (match guildCtx with | some g => g.cmdPfx | none => []) ++ p.pluginPfx

/-- The candidate list reaching the execution loop for one plugin:
prefix/word candidates surviving the spam gate, followed by the
`all`-type matches. -/
def finalCommands {σ : Type} (ctx : Ctx σ) (s : σ) (authorId : String) (lowered : Str)
    (guildCtx : Option Guild) (isCmd : Bool) (p : Plugin) : List Command :=
  let cands := buildCandidates p isCmd lowered (effectivePfx guildCtx p)
  (spamGate ctx s authorId (isOwner ctx.owners authorId) cands).2.1 ++ allTypeMatches p lowered

/-- The body of the plugin loop after the three skip gates (lines
89-150): candidate collection, spam gate, `all` append, execution. -/
def runPlugin {σ : Type} (ctx : Ctx σ) (s : σ) (authorId : String) (content lowered : Str)
    (guildCtx : Option Guild) (isCmd : Bool) (p : Plugin) : σ × MsgOut :=
  let effPfx := effectivePfx guildCtx p
  let cands := buildCandidates p isCmd lowered effPfx
  let gated := spamGate ctx s authorId (isOwner ctx.owners authorId) cands
  let finalCmds := gated.2.1 ++ allTypeMatches p lowered
  let execRes := execCommands p guildCtx.isSome content finalCmds
  (gated.1,
   { evaluated := [p.id]
     cmdMatches := (commandTypeMatches p isCmd lowered effPfx).map (fun c => (p.id, c.trigger))
     spamActions := gated.2.2.map (fun a => (p.id, a))
     attempts := execRes.1
     errLogs := execRes.2 })

/-- One iteration of the plugin loop (lines 73-151): the global enabled
gate, the permission gate (whose lookup throws on a missing record, line
81), the enabled-plugins gate, then the loop body. -/
def processPlugin {σ : Type} (ctx : Ctx σ) (s : σ) (authorId : String) (content lowered : Str)
    (guildCtx : Option Guild) (isCmd : Bool) (p : Plugin) : Except RouterError (σ × MsgOut) :=
  if !p.enabled then Except.ok (s, emptyOut)
  else
    match guildCtx with
    | some g =>
      match findVal g.permissions p.id with
      | none => Except.error (RouterError.missingPermission p.id)
      | some perm =>
        if !perm.allows authorId then Except.ok (s, emptyOut)
        else if skippedByEnabledPlugins g p.id then Except.ok (s, emptyOut)
        else Except.ok (runPlugin ctx s authorId content lowered (some g) isCmd p)
    | none => Except.ok (runPlugin ctx s authorId content lowered none isCmd p)

/-- Sequential processing of the plugin registry, threading the spam
state and concatenating outputs; a thrown permission `TypeError` aborts
the remainder of the loop. -/
def routePlugins {σ : Type} (ctx : Ctx σ) (authorId : String) (content lowered : Str)
    (guildCtx : Option Guild) (isCmd : Bool) :
    σ → List Plugin → Except RouterError (σ × MsgOut)
  | s, [] => Except.ok (s, emptyOut)
  | s, p :: rest =>
    match processPlugin ctx s authorId content lowered guildCtx isCmd p with
    | Except.error e => Except.error e
    | Except.ok r1 =>
      match routePlugins ctx authorId content lowered guildCtx isCmd r1.1 rest with
      | Except.error e => Except.error e
      | Except.ok r2 => Except.ok (r2.1, appendOut r1.2 r2.2)

/-- Embedding of `module.exports.onMessage` (`src/core/discotron.js`,
lines 49-153): bot-author gate, maintenance gate, guild resolution,
channel gate, `isCommand` computation, then the plugin loop. -/
def onMessage {σ : Type} (maintenance : Bool) (ctx : Ctx σ) (s : σ) (msg : Message) :
    Except RouterError (σ × MsgOut) :=
  if msg.authorIsBot then Except.ok (s, emptyOut)
  else if maintenance && !isOwner ctx.owners msg.authorId then Except.ok (s, emptyOut)
  else
    let guildCtx := resolvedGuild ctx msg
    if channelBlocked guildCtx msg.channelId then Except.ok (s, emptyOut)
    else
      routePlugins ctx msg.authorId msg.content (toLowerStr msg.content) guildCtx
        (isCommandOf guildCtx msg.content) s ctx.plugins

/-- Embedding of `Guild.setPluginEnabled` (`src/core/models/guild.js`,
lines 242-273), restricted to its in-memory effect on the
`_enabledPlugins` set (the write-through persistence is fire-and-forget
and not consulted by routing).  `installed` is the key list of
`Plugin.getAll()`. -/
def setPluginEnabled (installed : List String) (enabledPlugins : Finset String)
    (pluginId : String) (enabled : Bool) : Finset String :=
  if enabledPlugins.card = 0 then
    if !enabled then
      installed.foldl (fun s q => if pluginId ≠ q then insert q s else s) enabledPlugins
    else
      enabledPlugins
  else
    if enabled then insert pluginId enabledPlugins
    else enabledPlugins.erase pluginId

/-- Folding the disable-path insertion loop over the installed-plugin list
accumulates every installed plugin except the one being disabled. -/
lemma foldl_insert_except (pid : String) :
    ∀ (l : List String) (s : Finset String),
      l.foldl (fun s q => if pid ≠ q then insert q s else s) s
        = s ∪ (l.toFinset.erase pid) := by
  intro l
  induction l with
  | nil => intro s; simp
  | cons a l ih =>
    intro s
    rw [List.foldl_cons, ih]
    ext x
    by_cases h : pid = a <;> simp [h]
    all_goals aesop

/-- C6: when a guild's `enabledPlugins` set is empty (sentinel "all
enabled") and `setPluginEnabled(p, false)` is called, the set is
materialized to every installed plugin except `p`; when the set is empty
and `setPluginEnabled(p, true)` is called, the set stays empty; and
disabling the last remaining listed plugin empties the set, which the
router's enabled-plugins gate then reads as "every plugin enabled"
(it skips no plugin). -/
theorem setPluginEnabled_sentinel (installed : List String) (pluginId qId : String)
    (chans : Finset String) (perms : List (String × Permission)) (pfx : Str) :
    setPluginEnabled installed ∅ pluginId false = installed.toFinset.erase pluginId
    ∧ setPluginEnabled installed ∅ pluginId true = ∅
    ∧ setPluginEnabled installed {pluginId} pluginId false = ∅
    ∧ skippedByEnabledPlugins
        ⟨pfx, chans, setPluginEnabled installed {pluginId} pluginId false, perms⟩ qId
        = false := by
  refine ⟨?_, ?_, ?_, ?_⟩
  · have h := foldl_insert_except pluginId installed (∅ : Finset String)
    rw [setPluginEnabled]
    simp only [Finset.card_empty, if_pos, Bool.not_false, if_true]
    simpa using h
  · rw [setPluginEnabled]
    simp
  · rw [setPluginEnabled]
    simp
  · rw [setPluginEnabled]
    simp [skippedByEnabledPlugins]

/-- Persistence and reconciliation operations issued by `updateGuilds`:
guild creation (`new Guild`), guild deletion (`Guild.delete`, the
`db.delete` on the `Guilds` table) and the per-guild
`loadDiscordAdmins` refresh. -/
inductive ReconOp where
  | create (id : String)
  | dbDelete (id : String)
  | loadAdmins (id : String)
deriving DecidableEq

/-- Embedding of `module.exports.updateGuilds` (`src/core/discotron.js`,
lines 177-213) acting on the key list of the `Guild._guilds` object map
(keys are unique and kept in insertion order): diff the known registry
against the connected guild ids, create the newly connected guilds,
delete the abandoned ones, then reload native admins for every connected
guild.  `Guild.delete` removes the registry entry in a continuation of
its `db.delete`; per the single-threaded event model (spec section 5)
that continuation completes before the next reconciliation call, so the
deletion's in-memory effect is modelled as part of the call. -/
def updateGuilds (registry : List String) (connected : List String) :
    List String × List ReconOp :=
  let added := connected.filter (fun id => !(registry.contains id))
  let removed := registry.filter (fun id => !(connected.contains id))
  let reg1 := registry ++ added
  let reg2 := reg1.filter (fun id => !(removed.contains id))
  (reg2,
   added.map ReconOp.create ++ removed.map ReconOp.dbDelete
     ++ connected.map ReconOp.loadAdmins)

/-- C7: calling `updateGuilds` twice in a row with an unchanged set of
connected guild identifiers produces no net change: the second call
leaves the guild registry exactly as the first call left it and issues no
guild creations and no delete operations (only the unconditional
admin-refresh per connected guild). -/
theorem updateGuilds_idempotent (registry connected : List String) :
    updateGuilds (updateGuilds registry connected).1 connected
      = ((updateGuilds registry connected).1, connected.map ReconOp.loadAdmins) := by
  have hsup : ∀ id ∈ connected, id ∈ (updateGuilds registry connected).1 := by
    intro id hid
    simp only [updateGuilds, List.mem_filter, List.mem_append, List.mem_filter]
    constructor
    · by_cases h : id ∈ registry
      · exact Or.inl h
      · refine Or.inr ?_
        simp [hid, h]
    · simp [hid]
  have hsub : ∀ id ∈ (updateGuilds registry connected).1, id ∈ connected := by
    intro id hid
    simp only [updateGuilds, List.mem_filter, List.mem_append] at hid
    rcases hid with ⟨h1, h2⟩
    rcases h1 with h1 | h1
    · simp at h2
      tauto
    · simp at h1
      exact h1.1
  have h2 : connected.filter (fun id => !((updateGuilds registry connected).1.contains id)) = [] := by
    rw [List.filter_eq_nil_iff]
    intro a ha
    simp [hsup a ha]
  have h3 : (updateGuilds registry connected).1.filter (fun id => !(connected.contains id)) = [] := by
    rw [List.filter_eq_nil_iff]
    intro a ha
    simp [hsub a ha]
  conv_lhs => rw [updateGuilds]
  rw [h2, h3]
  simp

/-- Operations performed by `Owner.setOwners`: the in-memory replacement
of `Owner._owners`, the `db.delete` of all `Owners` rows, and one
`db.insert` per new owner id. -/
inductive OwnerOp where
  | memReplace (ids : List String)
  | dbDeleteAll
  | dbInsert (id : String)
deriving DecidableEq

/-- Embedding of `Owner.setOwners` (`src/core/models/owner.js`, lines
15-33): an empty input returns immediately; otherwise `Owner._owners`
becomes `new Set(ids)` and the persistence chain deletes every `Owners`
row and inserts the new ids.  Returns the new in-memory owner set and
the operation trace in program order. -/
def setOwners (owners : Finset String) (discordUserIds : List String) :
    Finset String × List OwnerOp :=
  if discordUserIds.length = 0 then (owners, [])
  else
    (discordUserIds.toFinset,
     OwnerOp.memReplace discordUserIds :: OwnerOp.dbDeleteAll ::
       discordUserIds.map OwnerOp.dbInsert)

/-- C8: `setOwners` with an empty input array leaves the in-memory owner
set unchanged and issues no persistence operation; with a non-empty input
it replaces the entire in-memory owner set with the input set, and that
in-memory replacement is the first operation of the trace, preceding
every persistence operation (the delete-all and the inserts). -/
theorem setOwners_empty_noop_and_replace_first (owners : Finset String)
    (ids : List String) :
    setOwners owners [] = (owners, [])
    ∧ (ids ≠ [] →
        (setOwners owners ids).1 = ids.toFinset
        ∧ ∃ rest, (setOwners owners ids).2 = OwnerOp.memReplace ids :: rest
            ∧ ∀ op ∈ rest, op = OwnerOp.dbDeleteAll ∨ ∃ id, op = OwnerOp.dbInsert id) := by
  constructor
  · rw [setOwners]
    simp
  · intro hne
    rw [setOwners, if_neg (by simpa using hne)]
    refine ⟨rfl, OwnerOp.dbDeleteAll :: ids.map OwnerOp.dbInsert, rfl, ?_⟩
    intro op hop
    simp only [List.mem_cons, List.mem_map] at hop
    rcases hop with rfl | ⟨id, _, rfl⟩
    · exact Or.inl rfl
    · exact Or.inr ⟨id, rfl⟩

/-- Witness for C8 at a concrete owner set and input list. -/
theorem setOwners_empty_noop_and_replace_first_witness :
    setOwners {"a"} [] = ({"a"}, [])
    ∧ ((setOwners {"a"} ["b", "c"]).1 = (["b", "c"] : List String).toFinset
        ∧ ∃ rest, (setOwners {"a"} ["b", "c"]).2 = OwnerOp.memReplace ["b", "c"] :: rest
            ∧ ∀ op ∈ rest, op = OwnerOp.dbDeleteAll ∨ ∃ id, op = OwnerOp.dbInsert id) := by
  have h := setOwners_empty_noop_and_replace_first {"a"} ["b", "c"]
  exact ⟨h.1, h.2 (by decide)⟩

/-- The attempted executions of the loop are exactly the scope-compatible
commands of the candidate list, independent of which actions throw. -/
lemma execCommands_attempts (p : Plugin) (inG : Bool) (content : Str) :
    ∀ cs : List Command,
      (execCommands p inG content cs).1
        = (cs.filter (fun c => scopeOk c.scope inG)).map (fun c => (p.name, c.trigger)) := by
  intro cs
  induction cs with
  | nil => rfl
  | cons c rest ih =>
    rw [execCommands]
    by_cases h : scopeOk c.scope inG
    · cases hact : c.doMessageAction content (splitOnSp content) <;>
        simp [h, hact, ih]
    · simp [h, ih]

/-- The error logs of the loop are exactly one entry, holding the plugin
name and the command trigger, per scope-compatible command whose action
throws. -/
lemma execCommands_logs (p : Plugin) (inG : Bool) (content : Str) :
    ∀ cs : List Command,
      (execCommands p inG content cs).2
        = cs.filterMap (fun c =>
            if scopeOk c.scope inG then
              match c.doMessageAction content (splitOnSp content) with
              | Except.ok _ => none
              | Except.error e => some ⟨p.name, c.trigger, e⟩
            else none) := by
  intro cs
  induction cs with
  | nil => rfl
  | cons c rest ih =>
    rw [execCommands]
    by_cases h : scopeOk c.scope inG
    · cases hact : c.doMessageAction content (splitOnSp content) <;>
        simp [h, hact, ih]
    · simp [h, ih]

/-- With a non-empty candidate list containing a non-exempt command and a
non-owner author, the spam block registers exactly one action and, when
the author is restricted after it, discards all candidates. -/
lemma spamGate_nonexempt {σ : Type} (ctx : Ctx σ) (s : σ) (authorId : String)
    (cs : List Command) (hne : cs ≠ [])
    (hex : ∃ c ∈ cs, c.bypassSpamDetection = false) :
    spamGate ctx s authorId false cs
      = (ctx.spamOnAction s authorId,
         if ctx.spamIsRestricted (ctx.spamOnAction s authorId) authorId then [] else cs,
         [authorId]) := by
  rw [spamGate]
  rw [if_neg (by simp [hne])]
  have hfind : (cs.find? (fun c => !c.bypassSpamDetection)).isSome := by
    rw [List.find?_isSome]
    rcases hex with ⟨c, hc, hbp⟩
    exact ⟨c, hc, by simp [hbp]⟩
  rcases Option.isSome_iff_exists.mp hfind with ⟨c, hc⟩
  rw [hc]
  by_cases h : ctx.spamIsRestricted (ctx.spamOnAction s authorId) authorId <;> simp [h]

/-- C1: for a non-Owner author, when the prefix/word candidate list of a
plugin is non-empty and contains at least one candidate that is not
spam-exempt, the plugin loop registers exactly one spam action for the
author for that plugin; and when the author is (or becomes) restricted
after that action, every prefix/word-triggered candidate is discarded
while exactly the matching `all`-type commands still reach execution
(subject only to the scope check of the execution loop). -/
theorem spamGate_one_action_and_restriction {σ : Type} (ctx : Ctx σ) (s : σ)
    (authorId : String) (content lowered : Str) (gctx : Option Guild) (isCmd : Bool)
    (p : Plugin)
    (hown : isOwner ctx.owners authorId = false)
    (hne : buildCandidates p isCmd lowered (effectivePfx gctx p) ≠ [])
    (hex : ∃ c ∈ buildCandidates p isCmd lowered (effectivePfx gctx p),
        c.bypassSpamDetection = false) :
    (runPlugin ctx s authorId content lowered gctx isCmd p).2.spamActions
        = [(p.id, authorId)]
    ∧ (ctx.spamIsRestricted (ctx.spamOnAction s authorId) authorId = true →
        (runPlugin ctx s authorId content lowered gctx isCmd p).2.attempts
          = ((allTypeMatches p lowered).filter (fun c => scopeOk c.scope gctx.isSome)).map
              (fun c => (p.name, c.trigger))) := by
  have hsg := spamGate_nonexempt ctx s authorId
    (buildCandidates p isCmd lowered (effectivePfx gctx p)) hne hex
  constructor
  · simp [runPlugin, hown, hsg]
  · intro hres
    simp [runPlugin, hown, hsg, hres, execCommands_attempts]

/-- A command action that succeeds. -/
def actOk : Str → List Str → Except String Unit := fun _ _ => Except.ok ()

/-- A trigger predicate that always matches. -/
def trigTrue : Str → Option Str → Bool := fun _ _ => true

/-- Concrete fixture: a non-exempt `command`-type command. -/
def cmdHelloW : Command := ⟨"hello", Scope.everywhere, false, trigTrue, actOk⟩

/-- Concrete fixture: a spam-exempt `all`-type command. -/
def cmdAllW : Command := ⟨"always", Scope.everywhere, true, trigTrue, actOk⟩

/-- Concrete fixture: a globally enabled plugin with prefix "!". -/
def pluginW : Plugin := ⟨"p1", "P1", ['!'], true, ⟨[cmdHelloW], [], [cmdAllW]⟩⟩

/-- Concrete fixture: a spam state counting actions, restricting at three
or more. -/
def spamCtxW : Ctx Nat :=
  ⟨∅, [], [pluginW], fun s _ => s + 1, fun s _ => decide (3 ≤ s)⟩

/-- Witness for C1: a concrete non-owner author at spam count 5 triggers
the plugin's non-exempt command; one action is registered and, the author
being restricted, only the `all`-type command executes. -/
theorem spamGate_one_action_and_restriction_witness :
    isOwner spamCtxW.owners "u" = false
    ∧ buildCandidates pluginW true ("!hello".data) (effectivePfx none pluginW) ≠ []
    ∧ (∃ c ∈ buildCandidates pluginW true ("!hello".data) (effectivePfx none pluginW),
        c.bypassSpamDetection = false)
    ∧ spamCtxW.spamIsRestricted (spamCtxW.spamOnAction 5 "u") "u" = true
    ∧ (runPlugin spamCtxW 5 "u" ("!hello".data) ("!hello".data) none true pluginW).2.spamActions
        = [("p1", "u")]
    ∧ (runPlugin spamCtxW 5 "u" ("!hello".data) ("!hello".data) none true pluginW).2.attempts
        = [("P1", "always")] := by
  have hne : buildCandidates pluginW true ("!hello".data) (effectivePfx none pluginW) ≠ [] := by
    intro h
    have := congrArg List.length h
    simp [buildCandidates, commandTypeMatches, effectivePfx, pluginW, startsWithStr,
      cmdHelloW, trigTrue] at this
  have hex : ∃ c ∈ buildCandidates pluginW true ("!hello".data) (effectivePfx none pluginW),
      c.bypassSpamDetection = false := by
    refine ⟨cmdHelloW, ?_, rfl⟩
    simp [buildCandidates, commandTypeMatches, effectivePfx, pluginW, startsWithStr,
      cmdHelloW, trigTrue]
  have h := spamGate_one_action_and_restriction spamCtxW 5 "u" ("!hello".data) ("!hello".data)
    none true pluginW (by decide) hne hex
  refine ⟨by decide, hne, hex, by decide, h.1, ?_⟩
  rw [h.2 (by decide)]
  simp [allTypeMatches, pluginW, cmdAllW, trigTrue, scopeOk]

/-- Appending the empty output on the left is the identity. -/
lemma appendOut_empty_left (b : MsgOut) : appendOut emptyOut b = b := by
  cases b
  simp [appendOut, emptyOut]

/-- Inversion of one successful step of the plugin loop. -/
lemma routePlugins_cons_ok {σ : Type} (ctx : Ctx σ) (authorId : String)
    (content lowered : Str) (gctx : Option Guild) (isCmd : Bool) (s : σ)
    (p : Plugin) (ps : List Plugin) (r : σ × MsgOut)
    (h : routePlugins ctx authorId content lowered gctx isCmd s (p :: ps) = Except.ok r) :
    ∃ v w, processPlugin ctx s authorId content lowered gctx isCmd p = Except.ok v
      ∧ routePlugins ctx authorId content lowered gctx isCmd v.1 ps = Except.ok w
      ∧ r = (w.1, appendOut v.2 w.2) := by
  rw [routePlugins] at h
  cases hp : processPlugin ctx s authorId content lowered gctx isCmd p with
  | error e =>
    rw [hp] at h
    simp at h
  | ok v =>
    rw [hp] at h
    simp only [] at h
    cases hw : routePlugins ctx authorId content lowered gctx isCmd v.1 ps with
    | error e =>
      rw [hw] at h
      simp at h
    | ok w =>
      rw [hw] at h
      simp at h
      exact ⟨v, w, rfl, hw, h.symm⟩

/-- Splitting the plugin loop over an appended registry: the second
segment is processed from the state the first segment left, and the
outputs concatenate. -/
lemma routePlugins_append {σ : Type} (ctx : Ctx σ) (authorId : String)
    (content lowered : Str) (gctx : Option Guild) (isCmd : Bool) :
    ∀ (ps1 ps2 : List Plugin) (s : σ) (r : σ × MsgOut),
      routePlugins ctx authorId content lowered gctx isCmd s (ps1 ++ ps2) = Except.ok r →
      ∃ r1 r2, routePlugins ctx authorId content lowered gctx isCmd s ps1 = Except.ok r1
        ∧ routePlugins ctx authorId content lowered gctx isCmd r1.1 ps2 = Except.ok r2
        ∧ r = (r2.1, appendOut r1.2 r2.2) := by
  intro ps1
  induction ps1 with
  | nil =>
    intro ps2 s r h
    refine ⟨(s, emptyOut), r, rfl, ?_, ?_⟩
    · simpa using h
    · cases r
      simp [appendOut_empty_left]
  | cons p ps1 ih =>
    intro ps2 s r h
    rcases routePlugins_cons_ok ctx authorId content lowered gctx isCmd s p (ps1 ++ ps2) r
      (by simpa using h) with ⟨v, w, hv, hw, hr⟩
    rcases ih ps2 v.1 w hw with ⟨r1, r2, h1, h2, h3⟩
    refine ⟨(r1.1, appendOut v.2 r1.2), r2, ?_, h2, ?_⟩
    · rw [routePlugins, hv]
      simp [h1]
    · rw [hr, h3]
      cases v.2
      cases r1.2
      cases r2.2
      simp [appendOut]

/-- C9: a command action that throws is caught and logged with the plugin
name and the command trigger, and does not prevent any subsequent
surviving candidate, of the same plugin or of any later plugin, from
executing: the attempted executions are exactly the scope-compatible
candidates, a formula independent of which actions throw; every error
log carries the plugin name and the trigger of a failing scope-compatible
candidate; every failing scope-compatible candidate is logged; and the
plugin loop over a split registry always goes on to process the second
segment, whose output is appended. -/
theorem command_failure_isolated {σ : Type} (ctx : Ctx σ) (authorId : String)
    (content lowered : Str) (gctx : Option Guild) (isCmd : Bool)
    (p : Plugin) (inG : Bool) (cs : List Command) (ps1 ps2 : List Plugin) (s : σ) :
    (execCommands p inG content cs).1
        = (cs.filter (fun c => scopeOk c.scope inG)).map (fun c => (p.name, c.trigger))
    ∧ (∀ e ∈ (execCommands p inG content cs).2,
        e.pluginName = p.name ∧ ∃ c ∈ cs, c.trigger = e.trigger
          ∧ scopeOk c.scope inG = true
          ∧ c.doMessageAction content (splitOnSp content) = Except.error e.errMsg)
    ∧ (∀ c ∈ cs, scopeOk c.scope inG = true →
        ∀ e, c.doMessageAction content (splitOnSp content) = Except.error e →
          (⟨p.name, c.trigger, e⟩ : ExecLog) ∈ (execCommands p inG content cs).2)
    ∧ (∀ r, routePlugins ctx authorId content lowered gctx isCmd s (ps1 ++ ps2) = Except.ok r →
        ∃ r1 r2, routePlugins ctx authorId content lowered gctx isCmd s ps1 = Except.ok r1
          ∧ routePlugins ctx authorId content lowered gctx isCmd r1.1 ps2 = Except.ok r2
          ∧ r.2.attempts = r1.2.attempts ++ r2.2.attempts) := by
  refine ⟨execCommands_attempts p inG content cs, ?_, ?_, ?_⟩
  · intro e he
    rw [execCommands_logs] at he
    rcases List.mem_filterMap.mp he with ⟨c, hc, hf⟩
    by_cases hs : scopeOk c.scope inG
    · rw [if_pos hs] at hf
      cases hact : c.doMessageAction content (splitOnSp content) with
      | ok u =>
        rw [hact] at hf
        cases hf
      | error err =>
        rw [hact] at hf
        have he2 := Option.some.inj hf
        subst he2
        exact ⟨rfl, c, hc, rfl, hs, hact⟩
    · rw [if_neg hs] at hf
      cases hf
  · intro c hc hs e hact
    rw [execCommands_logs]
    refine List.mem_filterMap.mpr ⟨c, hc, ?_⟩
    rw [if_pos hs, hact]
  · intro r h
    rcases routePlugins_append ctx authorId content lowered gctx isCmd ps1 ps2 s r h
      with ⟨r1, r2, h1, h2, h3⟩
    refine ⟨r1, r2, h1, h2, ?_⟩
    rw [h3]
    simp [appendOut]

/-- A command action that throws with message "kaboom". -/
def actBoom : Str → List Str → Except String Unit := fun _ _ => Except.error "kaboom"

/-- Concrete fixture: a spam-exempt `all`-type command whose action
throws. -/
def cmdBoomW : Command := ⟨"boom", Scope.everywhere, true, trigTrue, actBoom⟩

/-- Concrete fixture: a plugin whose only command throws. -/
def pluginB : Plugin := ⟨"p2", "P2", [], true, ⟨[], [], [cmdBoomW]⟩⟩

/-- Concrete fixture: a registry holding the throwing plugin before a
healthy one. -/
def ctxB : Ctx Nat :=
  ⟨∅, [], [pluginB, pluginW], fun s _ => s + 1, fun s _ => decide (3 ≤ s)⟩

/-- Witness for C9: the throwing command is attempted and logged, and the
plugin after the throwing one still executes its command. -/
theorem command_failure_isolated_witness :
    (execCommands pluginB false ("hi".data) [cmdBoomW]).1 = [("P2", "boom")]
    ∧ ((⟨"P2", "boom", "kaboom"⟩ : ExecLog) ∈ (execCommands pluginB false ("hi".data) [cmdBoomW]).2)
    ∧ (∃ r1 r2, routePlugins ctxB "u" ("hi".data) ("hi".data) none true 0 [pluginB] = Except.ok r1
        ∧ routePlugins ctxB "u" ("hi".data) ("hi".data) none true r1.1 [pluginW] = Except.ok r2
        ∧ [("P2", "boom"), ("P1", "always")] = r1.2.attempts ++ r2.2.attempts) := by
  have h := command_failure_isolated ctxB "u" ("hi".data) ("hi".data) none true pluginB false
    [cmdBoomW] [pluginB] [pluginW] 0
  refine ⟨h.1.trans (by decide), ?_, ?_⟩
  · exact h.2.2.1 cmdBoomW (by simp) (by decide) "kaboom" rfl
  · have hok : routePlugins ctxB "u" ("hi".data) ("hi".data) none true 0 ([pluginB] ++ [pluginW])
        = Except.ok (0, ⟨["p2", "p1"], [], [], [("P2", "boom"), ("P1", "always")],
                          [⟨"P2", "boom", "kaboom"⟩]⟩) := by
      rfl
    rcases h.2.2.2 _ hok with ⟨r1, r2, h1, h2, h3⟩
    exact ⟨r1, r2, h1, h2, by simpa using h3⟩

/-- For an owner author the spam block does nothing. -/
lemma spamGate_owner {σ : Type} (ctx : Ctx σ) (s : σ) (authorId : String)
    (cs : List Command) : spamGate ctx s authorId true cs = (s, cs, []) := by
  rw [spamGate]
  simp

/-- For an owner author the loop body leaves the spam state unchanged and
registers no spam action. -/
lemma runPlugin_owner {σ : Type} (ctx : Ctx σ) (s : σ) (authorId : String)
    (content lowered : Str) (gctx : Option Guild) (isCmd : Bool) (p : Plugin)
    (h : isOwner ctx.owners authorId = true) :
    (runPlugin ctx s authorId content lowered gctx isCmd p).1 = s
    ∧ (runPlugin ctx s authorId content lowered gctx isCmd p).2.spamActions = [] := by
  constructor <;> simp [runPlugin, h, spamGate_owner]

/-- For an owner author one plugin-loop iteration leaves the spam state
unchanged and registers no spam action. -/
lemma processPlugin_owner {σ : Type} (ctx : Ctx σ) (s : σ) (authorId : String)
    (content lowered : Str) (gctx : Option Guild) (isCmd : Bool) (p : Plugin)
    (h : isOwner ctx.owners authorId = true) (r : σ × MsgOut)
    (hr : processPlugin ctx s authorId content lowered gctx isCmd p = Except.ok r) :
    r.1 = s ∧ r.2.spamActions = [] := by
  rw [processPlugin.eq_def] at hr
  by_cases hen : !p.enabled
  · rw [if_pos hen] at hr
    cases Except.ok.inj hr
    exact ⟨rfl, rfl⟩
  · rw [if_neg hen] at hr
    cases gctx with
    | none =>
      simp only [] at hr
      cases Except.ok.inj hr
      exact runPlugin_owner ctx s authorId content lowered none isCmd p h
    | some g =>
      simp only [] at hr
      cases hperm : findVal g.permissions p.id with
      | none =>
        rw [hperm] at hr
        cases hr
      | some perm =>
        rw [hperm] at hr
        simp only [] at hr
        by_cases hal : !perm.allows authorId
        · rw [if_pos hal] at hr
          cases Except.ok.inj hr
          exact ⟨rfl, rfl⟩
        · rw [if_neg hal] at hr
          by_cases hsk : skippedByEnabledPlugins g p.id
          · rw [if_pos hsk] at hr
            cases Except.ok.inj hr
            exact ⟨rfl, rfl⟩
          · rw [if_neg hsk] at hr
            cases Except.ok.inj hr
            exact runPlugin_owner ctx s authorId content lowered (some g) isCmd p h

/-- For an owner author the whole plugin loop leaves the spam state
unchanged and registers no spam action. -/
lemma routePlugins_owner {σ : Type} (ctx : Ctx σ) (authorId : String)
    (content lowered : Str) (gctx : Option Guild) (isCmd : Bool)
    (h : isOwner ctx.owners authorId = true) :
    ∀ (ps : List Plugin) (s : σ) (r : σ × MsgOut),
      routePlugins ctx authorId content lowered gctx isCmd s ps = Except.ok r →
      r.1 = s ∧ r.2.spamActions = [] := by
  intro ps
  induction ps with
  | nil =>
    intro s r hr
    cases Except.ok.inj hr
    exact ⟨rfl, rfl⟩
  | cons p ps ih =>
    intro s r hr
    rcases routePlugins_cons_ok ctx authorId content lowered gctx isCmd s p ps r hr
      with ⟨v, w, hv, hw, hreq⟩
    rcases processPlugin_owner ctx s authorId content lowered gctx isCmd p h v hv with ⟨hv1, hv2⟩
    rcases ih v.1 w hw with ⟨hw1, hw2⟩
    subst hreq
    refine ⟨by rw [hw1, hv1], ?_⟩
    simp [appendOut, hv2, hw2]

/-- C5: when maintenance mode is on, a message from a non-Owner is
ignored entirely: no plugin processing, no spam action, spam state
unchanged; a message from an Owner is routed exactly as with maintenance
off, and independently of the maintenance flag an Owner's message never
registers a spam action nor changes the spam state. -/
theorem maintenance_nonowner_ignored_owner_bypasses {σ : Type} (maintenance : Bool)
    (ctx : Ctx σ) (s : σ) (msg : Message) :
    (isOwner ctx.owners msg.authorId = false →
      onMessage true ctx s msg = Except.ok (s, emptyOut))
    ∧ (isOwner ctx.owners msg.authorId = true →
        onMessage true ctx s msg = onMessage false ctx s msg
        ∧ ∀ r, onMessage maintenance ctx s msg = Except.ok r →
            r.1 = s ∧ r.2.spamActions = []) := by
  constructor
  · intro h
    by_cases hbot : msg.authorIsBot <;> simp [onMessage, hbot, h]
  · intro h
    constructor
    · simp [onMessage, h]
    · intro r hr
      rw [onMessage] at hr
      by_cases hbot : msg.authorIsBot
      · rw [if_pos hbot] at hr
        cases Except.ok.inj hr
        exact ⟨rfl, rfl⟩
      · rw [if_neg hbot] at hr
        rw [h] at hr
        simp only [Bool.not_true, Bool.and_false, Bool.false_eq_true, if_false] at hr
        by_cases hch : channelBlocked (resolvedGuild ctx msg) msg.channelId
        · rw [if_pos hch] at hr
          cases Except.ok.inj hr
          exact ⟨rfl, rfl⟩
        · rw [if_neg hch] at hr
          exact routePlugins_owner ctx msg.authorId msg.content (toLowerStr msg.content)
            (resolvedGuild ctx msg) (isCommandOf (resolvedGuild ctx msg) msg.content) h
            ctx.plugins s r hr

/-- Concrete fixture: a context whose owner set holds the author "o". -/
def ctxOwn : Ctx Nat :=
  ⟨{"o"}, [], [pluginW], fun s _ => s + 1, fun s _ => decide (3 ≤ s)⟩

/-- Concrete fixture: a direct message from the owner "o" triggering the
plugin's command. -/
def msgOwn : Message := ⟨false, "o", "ch", none, "!hello".data⟩

/-- Concrete fixture: the same direct message from the non-owner "u". -/
def msgUsr : Message := ⟨false, "u", "ch", none, "!hello".data⟩

/-- Witness for C5: under maintenance the non-owner's message is dropped
whole; the owner's identical message routes as with maintenance off, the
command executes, and no spam action is registered. -/
theorem maintenance_nonowner_ignored_owner_bypasses_witness :
    isOwner ctxOwn.owners "u" = false
    ∧ onMessage true ctxOwn 0 msgUsr = Except.ok (0, emptyOut)
    ∧ isOwner ctxOwn.owners "o" = true
    ∧ onMessage true ctxOwn 0 msgOwn = onMessage false ctxOwn 0 msgOwn
    ∧ ∀ r, onMessage true ctxOwn 0 msgOwn = Except.ok r → r.1 = 0 ∧ r.2.spamActions = [] := by
  have hu := (maintenance_nonowner_ignored_owner_bypasses true ctxOwn 0 msgUsr).1 (by decide)
  have ho := (maintenance_nonowner_ignored_owner_bypasses true ctxOwn 0 msgOwn).2 (by decide)
  exact ⟨by decide, hu, by decide, ho.1, ho.2⟩

/-- C4: with a guild context whose allowed-channel set is non-empty, a
message from a channel outside the set is ignored entirely (no plugin
processing, no execution, unchanged spam state); with an empty
allowed-channel set the routing result does not depend on the message's
channel at all. -/
theorem allowed_channels_gate {σ : Type} (m : Bool) (ctx : Ctx σ) (s : σ)
    (msg : Message) (g : Guild) (hres : resolvedGuild ctx msg = some g) :
    (g.allowedChannelIds ≠ ∅ → msg.channelId ∉ g.allowedChannelIds →
      onMessage m ctx s msg = Except.ok (s, emptyOut))
    ∧ (g.allowedChannelIds = ∅ → ∀ ch : String,
        onMessage m ctx s msg = onMessage m ctx s
          { msg with channelId := ch }) := by
  constructor
  · intro hne hnotin
    have hblock : channelBlocked (resolvedGuild ctx msg) msg.channelId = true := by
      rw [hres]
      simp [channelBlocked, hnotin, Finset.card_pos, Finset.nonempty_iff_ne_empty, hne]
    by_cases hbot : msg.authorIsBot
    · simp [onMessage, hbot]
    · by_cases hmnt : (m && !isOwner ctx.owners msg.authorId) = true
      · simp [onMessage, hbot, hmnt]
      · simp [onMessage, hbot, hmnt, hblock]
  · intro hemp ch
    have hres2 : resolvedGuild ctx { msg with channelId := ch } = some g := hres
    have hb1 : channelBlocked (resolvedGuild ctx msg) msg.channelId = false := by
      rw [hres]
      simp [channelBlocked, hemp]
    have hb2 : channelBlocked (resolvedGuild ctx { msg with channelId := ch }) ch = false := by
      rw [hres2]
      simp [channelBlocked, hemp]
    simp only [onMessage]
    rw [hb1, hb2, hres, hres2]

/-- Concrete fixture: a guild restricting the bot to channel "chA". -/
def gChan : Guild := ⟨[], {"chA"}, ∅, [("p1", ⟨fun _ => true⟩)]⟩

/-- Concrete fixture: a guild allowing every channel. -/
def gFree : Guild := ⟨[], ∅, ∅, [("p1", ⟨fun _ => true⟩)]⟩

/-- Concrete fixture: a registry holding both guilds. -/
def ctxChan : Ctx Nat :=
  ⟨∅, [("g1", gChan), ("g2", gFree)], [pluginW],
   fun s _ => s + 1, fun s _ => decide (3 ≤ s)⟩

/-- Witness for C4: a message in the disallowed channel "chB" of guild
"g1" is dropped whole; in guild "g2" (empty allowed set) the result is
channel-independent. -/
theorem allowed_channels_gate_witness :
    resolvedGuild ctxChan (⟨false, "u", "chB", some "g1", "!hello".data⟩ : Message)
        = some gChan
    ∧ onMessage false ctxChan 0 (⟨false, "u", "chB", some "g1", "!hello".data⟩ : Message)
        = Except.ok (0, emptyOut)
    ∧ onMessage false ctxChan 0 (⟨false, "u", "chB", some "g2", "!hello".data⟩ : Message)
        = onMessage false ctxChan 0 (⟨false, "u", "chC", some "g2", "!hello".data⟩ : Message) := by
  have h1 := (allowed_channels_gate false ctxChan 0
    (⟨false, "u", "chB", some "g1", "!hello".data⟩ : Message) gChan rfl).1
    (by decide) (by decide)
  have h2 := (allowed_channels_gate false ctxChan 0
    (⟨false, "u", "chB", some "g2", "!hello".data⟩ : Message) gFree rfl).2
    (by decide) "chC"
  exact ⟨rfl, h1, h2⟩

/-- When all three skip gates pass, one plugin-loop iteration is the loop
body. -/
lemma processPlugin_pass {σ : Type} (ctx : Ctx σ) (s : σ) (authorId : String)
    (content lowered : Str) (g : Guild) (isCmd : Bool) (p : Plugin) (perm : Permission)
    (hen : p.enabled = true) (hperm : findVal g.permissions p.id = some perm)
    (hallow : perm.allows authorId = true)
    (hskip : skippedByEnabledPlugins g p.id = false) :
    processPlugin ctx s authorId content lowered (some g) isCmd p
      = Except.ok (runPlugin ctx s authorId content lowered (some g) isCmd p) := by
  rw [processPlugin.eq_def]
  simp [hen, hperm, hallow, hskip]

/-- Every plugin id recorded as evaluated by one loop iteration under a
guild context is the iterated plugin's id, and that plugin was not
skipped by the enabled-plugins gate. -/
lemma processPlugin_evaluated {σ : Type} (ctx : Ctx σ) (s : σ) (authorId : String)
    (content lowered : Str) (g : Guild) (isCmd : Bool) (p : Plugin) (r : σ × MsgOut)
    (hr : processPlugin ctx s authorId content lowered (some g) isCmd p = Except.ok r) :
    ∀ id ∈ r.2.evaluated, id = p.id ∧ skippedByEnabledPlugins g p.id = false := by
  rw [processPlugin.eq_def] at hr
  by_cases hen : !p.enabled
  · rw [if_pos hen] at hr
    cases Except.ok.inj hr
    intro id hid
    simp [emptyOut] at hid
  · rw [if_neg hen] at hr
    simp only [] at hr
    cases hperm : findVal g.permissions p.id with
    | none =>
      rw [hperm] at hr
      cases hr
    | some perm =>
      rw [hperm] at hr
      simp only [] at hr
      by_cases hal : !perm.allows authorId
      · rw [if_pos hal] at hr
        cases Except.ok.inj hr
        intro id hid
        simp [emptyOut] at hid
      · rw [if_neg hal] at hr
        by_cases hsk : skippedByEnabledPlugins g p.id
        · rw [if_pos hsk] at hr
          cases Except.ok.inj hr
          intro id hid
          simp [emptyOut] at hid
        · rw [if_neg hsk] at hr
          cases Except.ok.inj hr
          intro id hid
          simp [runPlugin] at hid
          exact ⟨hid, by simpa using hsk⟩

/-- A plugin of the registry that passes all three gates is recorded as
evaluated by the loop. -/
lemma routePlugins_evaluated_mem {σ : Type} (ctx : Ctx σ) (authorId : String)
    (content lowered : Str) (g : Guild) (isCmd : Bool) :
    ∀ (ps : List Plugin) (s : σ) (r : σ × MsgOut) (p : Plugin) (perm : Permission),
      routePlugins ctx authorId content lowered (some g) isCmd s ps = Except.ok r →
      p ∈ ps → p.enabled = true → findVal g.permissions p.id = some perm →
      perm.allows authorId = true → skippedByEnabledPlugins g p.id = false →
      p.id ∈ r.2.evaluated := by
  intro ps
  induction ps with
  | nil =>
    intro s r p perm _ hmem
    cases hmem
  | cons q ps ih =>
    intro s r p perm hr hmem hen hperm hallow hskip
    rcases routePlugins_cons_ok ctx authorId content lowered (some g) isCmd s q ps r hr
      with ⟨v, w, hv, hw, hreq⟩
    subst hreq
    rcases List.mem_cons.mp hmem with heq | hmem2
    · subst heq
      rw [processPlugin_pass ctx s authorId content lowered g isCmd p perm
        hen hperm hallow hskip] at hv
      cases Except.ok.inj hv
      simp [appendOut, runPlugin]
    · have := ih v.1 w p perm hw hmem2 hen hperm hallow hskip
      simp [appendOut]
      exact Or.inr this

/-- Every plugin id recorded as evaluated under a guild context passed
the enabled-plugins gate. -/
lemma routePlugins_evaluated_sub {σ : Type} (ctx : Ctx σ) (authorId : String)
    (content lowered : Str) (g : Guild) (isCmd : Bool) :
    ∀ (ps : List Plugin) (s : σ) (r : σ × MsgOut),
      routePlugins ctx authorId content lowered (some g) isCmd s ps = Except.ok r →
      ∀ id ∈ r.2.evaluated, skippedByEnabledPlugins g id = false := by
  intro ps
  induction ps with
  | nil =>
    intro s r hr id hid
    cases Except.ok.inj hr
    simp [emptyOut] at hid
  | cons q ps ih =>
    intro s r hr id hid
    rcases routePlugins_cons_ok ctx authorId content lowered (some g) isCmd s q ps r hr
      with ⟨v, w, hv, hw, hreq⟩
    subst hreq
    simp [appendOut] at hid
    rcases hid with hid | hid
    · rcases processPlugin_evaluated ctx s authorId content lowered g isCmd q v hv id hid
        with ⟨heq, hsk⟩
      rw [heq]
      exact hsk
    · exact ih v.1 w hw id hid

/-- A message that passes the bot, maintenance and channel gates is
handed to the plugin loop. -/
lemma onMessage_main {σ : Type} (m : Bool) (ctx : Ctx σ) (s : σ) (msg : Message)
    (hbot : msg.authorIsBot = false)
    (hm : (m && !isOwner ctx.owners msg.authorId) = false)
    (hch : channelBlocked (resolvedGuild ctx msg) msg.channelId = false) :
    onMessage m ctx s msg
      = routePlugins ctx msg.authorId msg.content (toLowerStr msg.content)
          (resolvedGuild ctx msg) (isCommandOf (resolvedGuild ctx msg) msg.content)
          s ctx.plugins := by
  simp [onMessage, hbot, hm, hch]

/-- C3: an empty `enabledPlugins` set is the "all plugins enabled"
sentinel: the enabled-plugins gate then skips no plugin, and every
globally enabled plugin of the registry that the permission gate admits
reaches candidate evaluation for every message routed in the guild;
with a non-empty set, a plugin outside the set never reaches candidate
evaluation. -/
theorem enabledPlugins_empty_sentinel_routing {σ : Type} (m : Bool) (ctx : Ctx σ)
    (s : σ) (msg : Message) (g : Guild) (r : σ × MsgOut) (p : Plugin) (perm : Permission) :
    (g.enabledPlugins = ∅ → ∀ pid, skippedByEnabledPlugins g pid = false)
    ∧ (resolvedGuild ctx msg = some g → onMessage m ctx s msg = Except.ok r →
        msg.authorIsBot = false → (m && !isOwner ctx.owners msg.authorId) = false →
        channelBlocked (some g) msg.channelId = false →
        g.enabledPlugins = ∅ →
        p ∈ ctx.plugins → p.enabled = true →
        findVal g.permissions p.id = some perm → perm.allows msg.authorId = true →
        p.id ∈ r.2.evaluated)
    ∧ (resolvedGuild ctx msg = some g → onMessage m ctx s msg = Except.ok r →
        ∀ pid, pid ∉ g.enabledPlugins → g.enabledPlugins ≠ ∅ → pid ∉ r.2.evaluated) := by
  refine ⟨?_, ?_, ?_⟩
  · intro hemp pid
    simp [skippedByEnabledPlugins, hemp]
  · intro hres hok hbot hm hch hemp hmem hen hperm hallow
    rw [onMessage_main m ctx s msg hbot hm (by rw [hres]; exact hch), hres] at hok
    exact routePlugins_evaluated_mem ctx msg.authorId msg.content (toLowerStr msg.content) g
      (isCommandOf (some g) msg.content) ctx.plugins s r p perm hok hmem hen hperm hallow
      (by simp [skippedByEnabledPlugins, hemp])
  · intro hres hok pid hnotin hne
    by_cases hbot : msg.authorIsBot
    · rw [onMessage, if_pos hbot] at hok
      cases Except.ok.inj hok
      simp [emptyOut]
    · by_cases hm : (m && !isOwner ctx.owners msg.authorId) = true
      · rw [onMessage, if_neg (by simp [hbot]), if_pos hm] at hok
        cases Except.ok.inj hok
        simp [emptyOut]
      · by_cases hch : channelBlocked (resolvedGuild ctx msg) msg.channelId = true
        · simp only [onMessage] at hok
          rw [if_neg (by simp [hbot]), if_neg hm, if_pos hch] at hok
          cases Except.ok.inj hok
          simp [emptyOut]
        · rw [onMessage_main m ctx s msg (by simpa using hbot)
            (by simpa using hm) (by simpa using hch), hres] at hok
          intro hpid
          have := routePlugins_evaluated_sub ctx msg.authorId msg.content
            (toLowerStr msg.content) g (isCommandOf (some g) msg.content) ctx.plugins s r
            hok pid hpid
          rw [skippedByEnabledPlugins] at this
          simp [hnotin, Finset.card_pos, Finset.nonempty_iff_ne_empty, hne] at this

/-- Concrete fixture: a message in the all-channels guild "g2" of
`ctxChan`, whose `enabledPlugins` set is empty. -/
def msgFree : Message := ⟨false, "u", "chX", some "g2", "!hello".data⟩

/-- Concrete fixture: a guild whose `enabledPlugins` names only "p9". -/
def gSel : Guild := ⟨[], ∅, {"p9"}, [("p1", ⟨fun _ => true⟩)]⟩

/-- Concrete fixture: the selective guild's registry. -/
def ctxSel : Ctx Nat :=
  ⟨∅, [("g3", gSel)], [pluginW], fun s _ => s + 1, fun s _ => decide (3 ≤ s)⟩

/-- Concrete fixture: a message in the selective guild "g3". -/
def msgSel : Message := ⟨false, "u", "chX", some "g3", "!hello".data⟩

/-- Witness for C3: in guild "g2" (empty set) plugin "p1" is evaluated;
in guild "g3" (set `{"p9"}`) plugin "p1" is not. -/
theorem enabledPlugins_empty_sentinel_routing_witness :
    gFree.enabledPlugins = ∅
    ∧ skippedByEnabledPlugins gFree "p1" = false
    ∧ onMessage false ctxChan 0 msgFree
        = Except.ok (1, ⟨["p1"], [("p1", "hello")], [("p1", "u")],
                          [("P1", "hello"), ("P1", "always")], []⟩)
    ∧ "p1" ∈ (⟨["p1"], [("p1", "hello")], [("p1", "u")],
               [("P1", "hello"), ("P1", "always")], []⟩ : MsgOut).evaluated
    ∧ onMessage false ctxSel 0 msgSel = Except.ok (0, emptyOut)
    ∧ "p1" ∉ emptyOut.evaluated := by
  have hok : onMessage false ctxChan 0 msgFree
      = Except.ok (1, ⟨["p1"], [("p1", "hello")], [("p1", "u")],
                        [("P1", "hello"), ("P1", "always")], []⟩) := rfl
  have h1 := (enabledPlugins_empty_sentinel_routing false ctxChan 0 msgFree gFree
    (1, ⟨["p1"], [("p1", "hello")], [("p1", "u")],
         [("P1", "hello"), ("P1", "always")], []⟩) pluginW ⟨fun _ => true⟩).2.1
    rfl hok rfl (by decide) (by decide) (by decide) (by simp [ctxChan]) rfl rfl rfl
  have hok2 : onMessage false ctxSel 0 msgSel = Except.ok (0, emptyOut) := rfl
  have h2 := (enabledPlugins_empty_sentinel_routing false ctxSel 0 msgSel gSel
    (0, emptyOut) pluginW ⟨fun _ => true⟩).2.2 rfl hok2 "p1" (by decide) (by decide)
  exact ⟨by decide, by decide, hok, h1, hok2, h2⟩

/-- A globally disabled plugin's loop iteration is a no-op. -/
lemma processPlugin_disabled {σ : Type} (ctx : Ctx σ) (s : σ) (authorId : String)
    (content lowered : Str) (gctx : Option Guild) (isCmd : Bool) (p : Plugin)
    (hen : p.enabled = false) :
    processPlugin ctx s authorId content lowered gctx isCmd p = Except.ok (s, emptyOut) := by
  rw [processPlugin.eq_def]
  rw [if_pos (by simp [hen])]

/-- A plugin-loop iteration under a guild context holding a permission
record for the plugin never throws. -/
lemma processPlugin_ok {σ : Type} (ctx : Ctx σ) (s : σ) (authorId : String)
    (content lowered : Str) (g : Guild) (isCmd : Bool) (p : Plugin) (perm : Permission)
    (hperm : findVal g.permissions p.id = some perm) :
    ∃ v, processPlugin ctx s authorId content lowered (some g) isCmd p = Except.ok v := by
  by_cases hen : !p.enabled
  · exact ⟨(s, emptyOut), by rw [processPlugin.eq_def, if_pos hen]⟩
  · rw [processPlugin.eq_def, if_neg hen]
    simp only []
    rw [hperm]
    simp only []
    by_cases hal : !perm.allows authorId
    · exact ⟨(s, emptyOut), by rw [if_pos hal]⟩
    · rw [if_neg hal]
      by_cases hsk : skippedByEnabledPlugins g p.id = true
      · exact ⟨(s, emptyOut), by rw [if_pos hsk]⟩
      · exact ⟨_, by rw [if_neg hsk]⟩

/-- The plugin loop under a guild context never throws when the guild
holds a permission record for every globally enabled plugin. -/
lemma routePlugins_total {σ : Type} (ctx : Ctx σ) (authorId : String)
    (content lowered : Str) (g : Guild) (isCmd : Bool) :
    ∀ (ps : List Plugin) (s : σ),
      (∀ p ∈ ps, p.enabled = true → (findVal g.permissions p.id).isSome) →
      ∃ r, routePlugins ctx authorId content lowered (some g) isCmd s ps = Except.ok r := by
  intro ps
  induction ps with
  | nil => exact fun s _ => ⟨(s, emptyOut), rfl⟩
  | cons p ps ih =>
    intro s hall
    have hv : ∃ v, processPlugin ctx s authorId content lowered (some g) isCmd p
        = Except.ok v := by
      by_cases hen : p.enabled = true
      · rcases Option.isSome_iff_exists.mp (hall p (by simp) hen) with ⟨perm, hperm⟩
        exact processPlugin_ok ctx s authorId content lowered g isCmd p perm hperm
      · exact ⟨(s, emptyOut),
          processPlugin_disabled ctx s authorId content lowered (some g) isCmd p
            (by simpa using hen)⟩
    rcases hv with ⟨v, hv⟩
    rcases ih v.1 (fun q hq => hall q (by simp [hq])) with ⟨w, hw⟩
    refine ⟨(w.1, appendOut v.2 w.2), ?_⟩
    rw [routePlugins, hv]
    simp only []
    rw [hw]

/-- Concrete fixture: a guild with no permission records whose
enabled-plugins set excludes plugin "p1". -/
def gBad : Guild := ⟨[], ∅, {"p2"}, []⟩

/-- Concrete fixture: the registry of the record-less guild. -/
def ctxBad : Ctx Nat :=
  ⟨∅, [("g1", gBad)], [pluginW], fun s _ => s + 1, fun s _ => decide (3 ≤ s)⟩

/-- Concrete fixture: a message in the record-less guild. -/
def msgBad : Message := ⟨false, "u", "ch", some "g1", "hi".data⟩

/-- C10: `onMessage` dereferences the guild's permission record of every
globally enabled plugin with no definedness guard, before consulting the
guild's enabled-plugin set: routing completes whenever the guild holds a
record for every globally enabled plugin, and on the concrete input
whose guild lacks the record of plugin "p1" (a plugin even excluded by
the guild's enabled-plugin set) routing of the entire message aborts with
the uncaught `TypeError`. -/
theorem missing_permission_record_aborts {σ : Type} (m : Bool) (ctx : Ctx σ) (s : σ)
    (msg : Message) (g : Guild) :
    (resolvedGuild ctx msg = some g →
      (∀ p ∈ ctx.plugins, p.enabled = true → (findVal g.permissions p.id).isSome) →
      ∃ r, onMessage m ctx s msg = Except.ok r)
    ∧ gBad.enabledPlugins ≠ ∅ ∧ "p1" ∉ gBad.enabledPlugins
    ∧ onMessage false ctxBad 0 msgBad
        = Except.error (RouterError.missingPermission "p1") := by
  refine ⟨?_, by decide, by decide, rfl⟩
  intro hres hall
  by_cases hbot : msg.authorIsBot
  · exact ⟨(s, emptyOut), by simp [onMessage, hbot]⟩
  · by_cases hm : (m && !isOwner ctx.owners msg.authorId) = true
    · exact ⟨(s, emptyOut), by simp [onMessage, hbot, hm]⟩
    · by_cases hch : channelBlocked (resolvedGuild ctx msg) msg.channelId = true
      · exact ⟨(s, emptyOut), by simp [onMessage, hbot, hch]⟩
      · rw [onMessage_main m ctx s msg (by simpa using hbot) (by simpa using hm)
          (by simpa using hch), hres]
        exact routePlugins_total ctx msg.authorId msg.content (toLowerStr msg.content) g
          (isCommandOf (some g) msg.content) ctx.plugins s hall

/-- Witness for C10: in the fully configured guild "g2" every enabled
plugin has a permission record and routing completes. -/
theorem missing_permission_record_aborts_witness :
    resolvedGuild ctxChan msgFree = some gFree
    ∧ (∀ p ∈ ctxChan.plugins, p.enabled = true → (findVal gFree.permissions p.id).isSome)
    ∧ ∃ r, onMessage false ctxChan 0 msgFree = Except.ok r := by
  refine ⟨rfl, ?_, ?_⟩
  · intro p hp _
    rcases List.mem_singleton.mp hp with rfl
    rfl
  · exact (missing_permission_record_aborts false ctxChan 0 msgFree gFree).1 rfl
      (fun p hp _ => by rcases List.mem_singleton.mp hp with rfl; rfl)

/-- With `isCommand` false a loop iteration records no `command`-type
match. -/
lemma processPlugin_cmdMatches_nil {σ : Type} (ctx : Ctx σ) (s : σ) (authorId : String)
    (content lowered : Str) (gctx : Option Guild) (p : Plugin) (r : σ × MsgOut)
    (hr : processPlugin ctx s authorId content lowered gctx false p = Except.ok r) :
    r.2.cmdMatches = [] := by
  rw [processPlugin.eq_def] at hr
  by_cases hen : !p.enabled
  · rw [if_pos hen] at hr
    cases Except.ok.inj hr
    rfl
  · rw [if_neg hen] at hr
    cases gctx with
    | none =>
      simp only [] at hr
      cases Except.ok.inj hr
      simp [runPlugin, commandTypeMatches]
    | some g =>
      simp only [] at hr
      cases hperm : findVal g.permissions p.id with
      | none =>
        rw [hperm] at hr
        cases hr
      | some perm =>
        rw [hperm] at hr
        simp only [] at hr
        by_cases hal : !perm.allows authorId
        · rw [if_pos hal] at hr
          cases Except.ok.inj hr
          rfl
        · rw [if_neg hal] at hr
          by_cases hsk : skippedByEnabledPlugins g p.id
          · rw [if_pos hsk] at hr
            cases Except.ok.inj hr
            rfl
          · rw [if_neg hsk] at hr
            cases Except.ok.inj hr
            simp [runPlugin, commandTypeMatches]

/-- With `isCommand` false the whole plugin loop records no
`command`-type match. -/
lemma routePlugins_cmdMatches_nil {σ : Type} (ctx : Ctx σ) (authorId : String)
    (content lowered : Str) (gctx : Option Guild) :
    ∀ (ps : List Plugin) (s : σ) (r : σ × MsgOut),
      routePlugins ctx authorId content lowered gctx false s ps = Except.ok r →
      r.2.cmdMatches = [] := by
  intro ps
  induction ps with
  | nil =>
    intro s r hr
    cases Except.ok.inj hr
    rfl
  | cons p ps ih =>
    intro s r hr
    rcases routePlugins_cons_ok ctx authorId content lowered gctx false s p ps r hr
      with ⟨v, w, hv, hw, hreq⟩
    subst hreq
    have h1 := processPlugin_cmdMatches_nil ctx s authorId content lowered gctx p v hv
    have h2 := ih v.1 w hw
    simp [appendOut, h1, h2]

/-- With `isCommand` true, a plugin passing every gate whose effective
prefix is a prefix of the lower-cased message records each matching
`command`-type trigger. -/
lemma routePlugins_cmdMatches_mem {σ : Type} (ctx : Ctx σ) (authorId : String)
    (content lowered : Str) (g : Guild) :
    ∀ (ps : List Plugin) (s : σ) (r : σ × MsgOut) (p : Plugin) (perm : Permission)
      (c : Command),
      routePlugins ctx authorId content lowered (some g) true s ps = Except.ok r →
      p ∈ ps → p.enabled = true → findVal g.permissions p.id = some perm →
      perm.allows authorId = true → skippedByEnabledPlugins g p.id = false →
      startsWithStr lowered (g.cmdPfx ++ p.pluginPfx) = true →
      c ∈ p.commands.command →
      c.triggeredBy lowered (some (g.cmdPfx ++ p.pluginPfx)) = true →
      (p.id, c.trigger) ∈ r.2.cmdMatches := by
  intro ps
  induction ps with
  | nil =>
    intro s r p perm c _ hmem
    cases hmem
  | cons q ps ih =>
    intro s r p perm c hr hmem hen hperm hallow hskip hsw hc htrig
    rcases routePlugins_cons_ok ctx authorId content lowered (some g) true s q ps r hr
      with ⟨v, w, hv, hw, hreq⟩
    subst hreq
    rcases List.mem_cons.mp hmem with heq | hmem2
    · subst heq
      rw [processPlugin_pass ctx s authorId content lowered g true p perm
        hen hperm hallow hskip] at hv
      cases Except.ok.inj hv
      simp only [appendOut, List.mem_append]
      refine Or.inl ?_
      simp only [runPlugin, commandTypeMatches]
      have : startsWithStr lowered (effectivePfx (some g) p) = true := hsw
      rw [if_pos (by simp [this])]
      exact List.mem_map.mpr ⟨c, List.mem_filter.mpr ⟨hc, htrig⟩, rfl⟩
    · have := ih v.1 w p perm c hw hmem2 hen hperm hallow hskip hsw hc htrig
      simp [appendOut]
      exact Or.inr this

/-- C2 (amended): the `isCommand` gate compares the RAW message content
case-sensitively with the guild's command prefix, while the
effective-prefix check compares the LOWER-cased message with the
configured prefixes (case-insensitive on the message, no case folding of
prefixes): when the raw content does not start with the guild prefix no
`command`-type trigger matches anywhere, and when it does, every
gate-passing plugin whose effective prefix is a prefix of the lower-cased
message records its matching `command`-type triggers. -/
theorem prefix_checks_amended {σ : Type} (m : Bool) (ctx : Ctx σ) (s : σ)
    (msg : Message) (g : Guild) (r : σ × MsgOut)
    (hres : resolvedGuild ctx msg = some g)
    (hok : onMessage m ctx s msg = Except.ok r) :
    (startsWithStr msg.content g.cmdPfx = false → r.2.cmdMatches = [])
    ∧ (msg.authorIsBot = false → (m && !isOwner ctx.owners msg.authorId) = false →
        channelBlocked (some g) msg.channelId = false →
        ∀ p ∈ ctx.plugins, ∀ perm : Permission, ∀ c : Command,
          p.enabled = true → findVal g.permissions p.id = some perm →
          perm.allows msg.authorId = true → skippedByEnabledPlugins g p.id = false →
          startsWithStr msg.content g.cmdPfx = true →
          startsWithStr (toLowerStr msg.content) (g.cmdPfx ++ p.pluginPfx) = true →
          c ∈ p.commands.command →
          c.triggeredBy (toLowerStr msg.content) (some (g.cmdPfx ++ p.pluginPfx)) = true →
          (p.id, c.trigger) ∈ r.2.cmdMatches) := by
  constructor
  · intro hraw
    by_cases hbot : msg.authorIsBot
    · rw [onMessage, if_pos hbot] at hok
      cases Except.ok.inj hok
      rfl
    · by_cases hm : (m && !isOwner ctx.owners msg.authorId) = true
      · rw [onMessage, if_neg (by simp [hbot]), if_pos hm] at hok
        cases Except.ok.inj hok
        rfl
      · by_cases hch : channelBlocked (resolvedGuild ctx msg) msg.channelId = true
        · simp only [onMessage] at hok
          rw [if_neg (by simp [hbot]), if_neg hm, if_pos hch] at hok
          cases Except.ok.inj hok
          rfl
        · rw [onMessage_main m ctx s msg (by simpa using hbot) (by simpa using hm)
            (by simpa using hch), hres] at hok
          have hic : isCommandOf (some g) msg.content = false := by
            simp [isCommandOf, hraw]
          rw [hic] at hok
          exact routePlugins_cmdMatches_nil ctx msg.authorId msg.content
            (toLowerStr msg.content) (some g) ctx.plugins s r hok
  · intro hbot hm hch p hp perm c hen hperm hallow hskip hraw hlow hc htrig
    rw [onMessage_main m ctx s msg hbot hm (by rw [hres]; exact hch), hres] at hok
    have hic : isCommandOf (some g) msg.content = true := by
      simp [isCommandOf, hraw]
    rw [hic] at hok
    exact routePlugins_cmdMatches_mem ctx msg.authorId msg.content
      (toLowerStr msg.content) g ctx.plugins s r p perm c hok hp hen hperm hallow
      hskip hlow hc htrig

/-- Concrete fixture: a guild whose command prefix is the word "cmd". -/
def gC2 : Guild := ⟨"cmd".data, ∅, ∅, [("p1", ⟨fun _ => true⟩)]⟩

/-- Concrete fixture: a prefix-less plugin with one catch-all
`command`-type trigger. -/
def pluginC2 : Plugin := ⟨"p1", "P1", [], true, ⟨[cmdHelloW], [], []⟩⟩

/-- Concrete fixture: the registry of the "cmd"-prefix guild. -/
def ctxC2 : Ctx Nat :=
  ⟨∅, [("g1", gC2)], [pluginC2], fun s _ => s + 1, fun s _ => decide (3 ≤ s)⟩

/-- Concrete fixture: a message matching the guild prefix up to letter
case only. -/
def msgUp : Message := ⟨false, "u", "ch", some "g1", "CMD hi".data⟩

/-- Concrete fixture: the same message in the prefix's exact case. -/
def msgLo : Message := ⟨false, "u", "ch", some "g1", "cmd hi".data⟩

/-- Counterexample to C2: the message "CMD hi" differs from the guild
prefix "cmd" only in letter case (its lower-casing starts with the
prefix), yet it is not treated as a command: no `command`-type trigger
matches and nothing executes, whereas the exact-case "cmd hi" triggers
the command. -/
theorem isCommand_gate_case_sensitive_cx :
    startsWithStr (toLowerStr ("CMD hi".data)) gC2.cmdPfx = true
    ∧ onMessage false ctxC2 0 msgUp = Except.ok (0, ⟨["p1"], [], [], [], []⟩)
    ∧ onMessage false ctxC2 0 msgLo
        = Except.ok (1, ⟨["p1"], [("p1", "hello")], [("p1", "u")], [("P1", "hello")], []⟩) := by
  exact ⟨by decide, rfl, rfl⟩

/-- Witness for the amended C2: "CMD hi" records no `command`-type match;
"cmd hi" records the match of the catch-all trigger, found through the
lower-cased comparison. -/
theorem prefix_checks_amended_witness :
    startsWithStr msgUp.content gC2.cmdPfx = false
    ∧ (⟨["p1"], [], [], [], []⟩ : MsgOut).cmdMatches = []
    ∧ startsWithStr msgLo.content gC2.cmdPfx = true
    ∧ startsWithStr (toLowerStr msgLo.content) (gC2.cmdPfx ++ pluginC2.pluginPfx) = true
    ∧ ("p1", "hello")
        ∈ (⟨["p1"], [("p1", "hello")], [("p1", "u")], [("P1", "hello")], []⟩ : MsgOut).cmdMatches := by
  have h1 := (prefix_checks_amended false ctxC2 0 msgUp gC2 (0, ⟨["p1"], [], [], [], []⟩)
    rfl rfl).1 (by decide)
  have h2 := (prefix_checks_amended false ctxC2 0 msgLo gC2
    (1, ⟨["p1"], [("p1", "hello")], [("p1", "u")], [("P1", "hello")], []⟩) rfl rfl).2
    rfl (by decide) (by decide) pluginC2 (by simp [ctxC2]) ⟨fun _ => true⟩ cmdHelloW rfl rfl rfl
    (by decide) (by decide) (by decide) (by simp [pluginC2]) rfl
  exact ⟨by decide, h1, by decide, by decide, h2⟩
